import Mathlib

/-!
# Verification of the `ovu-shared` Sidebar component

Shallow embedding of the Sidebar React component of the `ovu-shared`
repository (`src/react-components/Sidebar/Sidebar.tsx` and the unnamed
variants `src/unnamed/part_000`, `src/unnamed/part_001`), together with
proofs of the behavioural properties of its menu-tree traversal, its
collapse/expand state management and its use of browser local storage.
-/

namespace OvuShared

/-- A menu item, as in the `MenuItem` interface of `Sidebar.tsx`:
a stable `id`, two display labels, an icon glyph, a navigation `path`
and an optional ordered list of child items. -/
inductive MenuItem : Type where
  | mk (id label labelEn icon path : String)
       (subItems : Option (List MenuItem)) : MenuItem

def MenuItem.id : MenuItem → String
  | .mk i _ _ _ _ _ => i

def MenuItem.path : MenuItem → String
  | .mk _ _ _ _ p _ => p

def MenuItem.subItems : MenuItem → Option (List MenuItem)
  | .mk _ _ _ _ _ s => s

/-- The inner `findPath` closure of `findExpandedItems` in `Sidebar.tsx`:
a short-circuiting depth-first search.  Returning `some parentIds` models
`expanded.push(...parentIds); return true` (the ids pushed into the
`expanded` array), returning `none` models `return false` with nothing
pushed. -/
def findPath (targetPath : String) :
    List MenuItem → List String → Option (List String)
  | [], _ => none
  | MenuItem.mk i _ _ _ p sub :: rest, parentIds =>
    if p = targetPath then
      some parentIds
    else
      match sub with
      | some subs =>
        match findPath targetPath subs (parentIds ++ [i]) with
        | some r => some r
        | none => findPath targetPath rest parentIds
      | none => findPath targetPath rest parentIds

/-- `findExpandedItems` of `Sidebar.tsx`: the ids pushed by `findPath`,
or the empty list when no node matched. -/
def findExpandedItems (items : List MenuItem) (targetPath : String) :
    List String :=
  (findPath targetPath items []).getD []

/-- The inner `findPath` closure of `getExpandedItemsForPath` in
`src/unnamed/part_000`: a non-short-circuiting depth-first search.  It
returns from the scan of one sibling list at a direct match there, but a
recursive call into `subItems` does not stop the scan of the outer list,
so ancestor ids of matches in several branches all accumulate in
`expanded` (modelled by the accumulator argument). -/
def findPathAcc (targetPath : String) :
    List MenuItem → List String → List String → List String
  | [], _, expanded => expanded
  | MenuItem.mk i _ _ _ p sub :: rest, parentIds, expanded =>
    if p = targetPath then
      expanded ++ parentIds
    else
      match sub with
      | some subs =>
        findPathAcc targetPath rest parentIds
          (findPathAcc targetPath subs (parentIds ++ [i]) expanded)
      | none => findPathAcc targetPath rest parentIds expanded

/-- `getExpandedItemsForPath` of `src/unnamed/part_000`. -/
def getExpandedItemsForPath (items : List MenuItem) (path : String) :
    List String :=
  findPathAcc path items [] []

/-- The `hasSubItems` test of `renderMenuItem`:
`item.subItems && item.subItems.length > 0`. -/
def hasSubItems (item : MenuItem) : Bool :=
  match item.subItems with
  | some subs => decide (0 < subs.length)
  | none => false

/-- `toggleExpand` of `Sidebar.tsx` (identical in all three variants):
remove every occurrence of the id when present, append it otherwise. -/
def toggleExpand (itemId : String) (prev : List String) : List String :=
  if prev.contains itemId then prev.filter (fun i => i != itemId)
  else prev ++ [itemId]

/-- The `onClick` handler of `renderMenuItem`: items with sub-items
toggle their expansion, leaf items navigate.  The result pairs the new
expanded-items list with the path passed to `onNavigate` (`none` when
the callback is not invoked). -/
def handleClick (item : MenuItem) (expandedItems : List String) :
    List String × Option String :=
  if hasSubItems item then (toggleExpand item.id expandedItems, none)
  else (expandedItems, some item.path)

/-- The browser `localStorage`, as a partial map from keys to strings. -/
def Store : Type := String → Option String

def Store.getItem (s : Store) (k : String) : Option String := s k

def Store.setItem (s : Store) (k v : String) : Store :=
  fun k2 => if k2 = k then some v else s k2

def Store.removeItem (s : Store) (k : String) : Store :=
  fun k2 => if k2 = k then none else s k2

/-- The component state of the Sidebar: the two `useState` hooks of
`Sidebar.tsx`. -/
structure SidebarState where
  collapsed : Bool
  expandedItems : List String
deriving DecidableEq

/-- The initial state of `Sidebar.tsx`: the `useState` initializers.
`collapsed` starts as
`expanded.length === 0 && localStorage.getItem('sidebar_collapsed') === 'true'`
and `expandedItems` starts as the ancestor chain of the current path. -/
def initState (menuItems : List MenuItem) (currentPath : String)
    (store : Store) : SidebarState :=
  let expanded := findExpandedItems menuItems currentPath
  { collapsed :=
      expanded.isEmpty &&
        decide (store.getItem "sidebar_collapsed" = some "true"),
    expandedItems := expanded }

/-- The path-synchronization `useEffect` of `Sidebar.tsx`: reset
`expandedItems` to the ancestor chain of the current path; when that
chain is non-empty, force the sidebar open and remove the stored
preference. -/
def syncWithPath (menuItems : List MenuItem) (currentPath : String)
    (s : SidebarState) (store : Store) : SidebarState × Store :=
  let expanded := findExpandedItems menuItems currentPath
  if expanded.length > 0 then
    ({ collapsed := false, expandedItems := expanded },
     Store.removeItem store "sidebar_collapsed")
  else
    ({ s with expandedItems := expanded }, store)

/-- The `useLayoutEffect` of `src/unnamed/part_001`: reset
`expandedItems`; force open (and clear the stored preference) when the
ancestor chain is non-empty, otherwise read the collapsed state back
from storage. -/
def layoutSync (menuItems : List MenuItem) (currentPath : String)
    (store : Store) : SidebarState × Store :=
  let expanded := findExpandedItems menuItems currentPath
  if expanded.length > 0 then
    ({ collapsed := false, expandedItems := expanded },
     Store.removeItem store "sidebar_collapsed")
  else
    ({ collapsed := decide (store.getItem "sidebar_collapsed" = some "true"),
       expandedItems := expanded }, store)

/-- `toggleCollapse` of `Sidebar.tsx`: flip `collapsed`; persist the new
value as the string `String(newCollapsed)` only when the current path
has no active sub-items, otherwise remove the stored preference. -/
def toggleCollapse (menuItems : List MenuItem) (currentPath : String)
    (s : SidebarState) (store : Store) : SidebarState × Store :=
  let newCollapsed := !s.collapsed
  if (findExpandedItems menuItems currentPath).length > 0 then
    ({ s with collapsed := newCollapsed },
     Store.removeItem store "sidebar_collapsed")
  else
    ({ s with collapsed := newCollapsed },
     Store.setItem store "sidebar_collapsed" (toString newCollapsed))

/-- Specification-side definition (from the spec's words, not from the
source): the depth-first (document-order) enumeration of all nodes of a
menu forest, each paired with the ids of its proper ancestors in
root-to-parent order. -/
def dfsWithAncestors :
    List MenuItem → List String → List (MenuItem × List String)
  | [], _ => []
  | MenuItem.mk i l le ic p sub :: rest, anc =>
    (MenuItem.mk i l le ic p sub, anc) ::
      ((match sub with
        | some subs => dfsWithAncestors subs (anc ++ [i])
        | none => []) ++ dfsWithAncestors rest anc)

/-- Specification-side definition: the proper-ancestor ids of the first
node in depth-first order whose path is the target, or `[]` when no node
matches. -/
def ancestorsOfFirstMatch (items : List MenuItem) (targetPath : String) :
    List String :=
  (((dfsWithAncestors items []).find?
      (fun n => n.1.path == targetPath)).map Prod.snd).getD []

/-- The number of nodes in the forest whose path is the target. -/
def countMatches (targetPath : String) : List MenuItem → Nat
  | [] => 0
  | MenuItem.mk _ _ _ _ p sub :: rest =>
    (if p = targetPath then 1 else 0) +
      (match sub with
       | some subs => countMatches targetPath subs
       | none => 0) +
      countMatches targetPath rest

/-- The spec's data-hygiene condition: in every sibling list of the
forest (the top-level list and each `subItems` list), paths are
pairwise distinct. -/
def siblingPathsUnique : List MenuItem → Bool
  | [] => true
  | MenuItem.mk _ _ _ _ p sub :: rest =>
    !((rest.map MenuItem.path).contains p) &&
      (match sub with
       | some subs => siblingPathsUnique subs
       | none => true) &&
      siblingPathsUnique rest

/-- Fuel-bounded variant of `findPath`, used to state termination: it
returns `none` when the fuel runs out before the recursion finishes. -/
def findPathFuel (fuel : Nat) (targetPath : String)
    (items : List MenuItem) (parentIds : List String) :
    Option (Option (List String)) :=
  match fuel with
  | 0 => none
  | fuel + 1 =>
    match items with
    | [] => some none
    | MenuItem.mk i _ _ _ p sub :: rest =>
      if p = targetPath then
        some (some parentIds)
      else
        match sub with
        | some subs =>
          match findPathFuel fuel targetPath subs (parentIds ++ [i]) with
          | none => none
          | some (some r) => some (some r)
          | some none => findPathFuel fuel targetPath rest parentIds
        | none => findPathFuel fuel targetPath rest parentIds

/-- The number of nodes of a menu forest plus one per list, an
executable bound on the recursion depth of `findPath`. -/
def menuSize : List MenuItem → Nat
  | [] => 1
  | MenuItem.mk _ _ _ _ _ sub :: rest =>
    1 + (match sub with
         | some subs => menuSize subs
         | none => 0) + menuSize rest

/-- The empty browser storage. -/
def emptyStore : Store := fun _ => none

/-- A storage holding the collapse preference `"true"`. -/
def prefStore : Store :=
  fun k => if k = "sidebar_collapsed" then some "true" else none

/-- A sample menu tree: two top-level sections with distinct paths, each
with one child, the two children sharing the path `"/t"`.  Every sibling
list has pairwise-distinct paths. -/
def cexMenu : List MenuItem :=
  [ .mk "a" "" "" "" "/a" (some [ .mk "x" "" "" "" "/t" none ]),
    .mk "b" "" "" "" "/b" (some [ .mk "y" "" "" "" "/t" none ]) ]

/-- A sample item with one child. -/
def wParent : MenuItem :=
  .mk "p1" "" "" "" "/p" (some [ .mk "c1" "" "" "" "/c" none ])

/-- A sample leaf item. -/
def wLeaf : MenuItem := .mk "l1" "" "" "" "/leaf" none

end OvuShared

namespace OvuShared

/-! ## Helper lemmas -/

theorem mem_toggleExpand_self (a : String) (l : List String) :
    a ∈ toggleExpand a l ↔ a ∉ l := by
  by_cases h : a ∈ l <;> simp [toggleExpand, h, List.mem_filter]

theorem mem_toggleExpand_toggleExpand (a x : String) (l : List String) :
    x ∈ toggleExpand a (toggleExpand a l) ↔ x ∈ l := by
  by_cases h : a ∈ l
  · by_cases hxa : x = a
    · subst hxa
      simp [toggleExpand, h, List.mem_filter]
    · simp [toggleExpand, h, List.mem_filter, hxa]
  · by_cases hxa : x = a
    · subst hxa
      simp [toggleExpand, h, List.mem_filter]
    · simp [toggleExpand, h, List.mem_filter, hxa]

theorem toggleExpand_toggleExpand_eq (a : String) (l : List String) :
    toggleExpand a (toggleExpand a l) =
      if a ∈ l then l.filter (fun i => i != a) ++ [a] else l := by
  by_cases h : a ∈ l
  · have h2 : a ∉ l.filter (fun i => i != a) := by
      simp [List.mem_filter]
    simp [toggleExpand, h, h2]
  · have h2 : l.filter (fun i => i != a) = l := by
      refine List.filter_eq_self.mpr ?hh
      intro x hx
      simp only [bne_iff_ne, ne_eq]
      rintro rfl
      exact h hx
    simp [toggleExpand, h, List.filter_append, h2]

theorem menuSize_pos (items : List MenuItem) : 0 < menuSize items := by
  rw [menuSize.eq_def]
  split
  · omega
  · omega

theorem findPath_eq_find (t : String) (items : List MenuItem)
    (anc : List String) :
    findPath t items anc =
      ((dfsWithAncestors items anc).find? (fun n => n.1.path == t)).map
        Prod.snd := by
  induction items, anc using findPath.induct t with
  | case1 anc =>
    simp [findPath, dfsWithAncestors]
  | case2 i l le ic sub rest anc =>
    rw [findPath.eq_def, dfsWithAncestors.eq_def]
    simp only []
    rw [List.find?_cons_of_pos _ (by simp [MenuItem.path])]
    simp
  | case3 i l le ic p rest anc hp subs r hfind ih =>
    rw [dfsWithAncestors.eq_def]
    simp only []
    rw [List.find?_cons_of_neg _ (by simp [MenuItem.path, hp]),
        List.find?_append]
    rw [hfind] at ih
    cases hx : (dfsWithAncestors subs (anc ++ [i])).find?
        (fun n => n.1.path == t) with
    | none => rw [hx] at ih; simp at ih
    | some x =>
      rw [hx] at ih
      simp at ih
      simp [findPath, hp, hfind, Option.or, ih]
  | case4 i l le ic p rest anc hp subs hfind ihs ihr =>
    rw [dfsWithAncestors.eq_def]
    simp only []
    rw [List.find?_cons_of_neg _ (by simp [MenuItem.path, hp]),
        List.find?_append]
    rw [hfind] at ihs
    have hnone : (dfsWithAncestors subs (anc ++ [i])).find?
        (fun n => n.1.path == t) = none := by
      cases hx : (dfsWithAncestors subs (anc ++ [i])).find?
          (fun n => n.1.path == t) with
      | none => rfl
      | some x => rw [hx] at ihs; simp at ihs
    rw [hnone]
    simp [findPath, hp, hfind, Option.or, ihr]
  | case5 i l le ic p rest anc hp ihr =>
    rw [dfsWithAncestors.eq_def]
    simp only []
    rw [List.find?_cons_of_neg _ (by simp [MenuItem.path, hp])]
    simp [findPath, hp, ihr]

theorem findPath_eq_none_iff (t : String) (items : List MenuItem)
    (anc : List String) :
    findPath t items anc = none ↔ countMatches t items = 0 := by
  induction items, anc using findPath.induct t with
  | case1 anc => simp [findPath, countMatches]
  | case2 i l le ic sub rest anc =>
    cases sub with
    | some subs => simp [findPath, countMatches]
    | none => simp [findPath, countMatches]
  | case3 i l le ic p rest anc hp subs r hfind ih =>
    rw [hfind] at ih
    simp only [reduceCtorEq, false_iff] at ih
    simp only [findPath, countMatches, if_neg hp, hfind]
    simp only [reduceCtorEq, false_iff]
    omega
  | case4 i l le ic p rest anc hp subs hfind ihs ihr =>
    rw [hfind] at ihs
    simp only [true_iff] at ihs
    simp only [findPath, countMatches, if_neg hp, hfind, ihs]
    rw [ihr]
    omega
  | case5 i l le ic p rest anc hp ihr =>
    simp only [findPath, countMatches, if_neg hp]
    rw [ihr]
    omega

theorem findPathFuel_eq (t : String) :
    ∀ (fuel : Nat) (items : List MenuItem) (anc : List String),
      menuSize items ≤ fuel →
      findPathFuel fuel t items anc = some (findPath t items anc) := by
  intro fuel
  induction fuel with
  | zero =>
    intro items anc h
    exact absurd h (by have := menuSize_pos items; omega)
  | succ fuel ih =>
    intro items anc h
    cases items with
    | nil => simp [findPathFuel, findPath]
    | cons x rest =>
      cases x with
      | mk i l le ic p sub =>
        by_cases hp : p = t
        · subst hp
          cases sub <;> simp [findPathFuel, findPath]
        · cases sub with
          | none =>
            have hr : menuSize rest ≤ fuel := by
              simp only [menuSize] at h
              omega
            simp [findPathFuel, findPath, hp, ih rest anc hr]
          | some subs =>
            have hs : menuSize subs ≤ fuel := by
              simp only [menuSize] at h
              omega
            have hr : menuSize rest ≤ fuel := by
              simp only [menuSize] at h
              omega
            cases hsub : findPath t subs (anc ++ [i]) with
            | none =>
              simp [findPathFuel, findPath, hp,
                ih subs (anc ++ [i]) hs, ih rest anc hr, hsub]
            | some r =>
              simp [findPathFuel, findPath, hp,
                ih subs (anc ++ [i]) hs, hsub]

theorem findPathAcc_eq_findPath (t : String) (items : List MenuItem)
    (anc acc : List String) :
    countMatches t items ≤ 1 →
    findPathAcc t items anc acc = acc ++ (findPath t items anc).getD [] := by
  induction items, anc, acc using findPathAcc.induct t with
  | case1 anc acc =>
    intro _
    simp [findPathAcc, findPath]
  | case2 i l le ic sub rest anc acc =>
    intro _
    cases sub <;> simp [findPathAcc, findPath]
  | case3 i l le ic p rest anc acc hp subs ihs ihr =>
    intro h
    have hcount : countMatches t subs + countMatches t rest ≤ 1 := by
      simp only [countMatches, if_neg hp] at h
      omega
    cases hfp : findPath t subs (anc ++ [i]) with
    | none =>
      have hsub0 : countMatches t subs = 0 :=
        (findPath_eq_none_iff t subs (anc ++ [i])).mp hfp
      have hacc : findPathAcc t subs (anc ++ [i]) acc = acc := by
        rw [ihs (by omega), hfp]
        simp
      rw [hacc] at ihr
      simp only [findPathAcc, findPath, if_neg hp, hfp, hacc]
      exact ihr (by omega)
    | some r =>
      have hsub_ne : countMatches t subs ≠ 0 := by
        intro h0
        have hn := (findPath_eq_none_iff t subs (anc ++ [i])).mpr h0
        rw [hfp] at hn
        exact Option.noConfusion hn
      have hrest0 : countMatches t rest = 0 := by omega
      have hrfp : findPath t rest anc = none :=
        (findPath_eq_none_iff t rest anc).mpr hrest0
      have hacc : findPathAcc t subs (anc ++ [i]) acc = acc ++ r := by
        rw [ihs (by omega), hfp]
        simp
      rw [hacc] at ihr
      simp only [findPathAcc, findPath, if_neg hp, hfp, hacc]
      rw [ihr (by omega), hrfp]
      simp
  | case4 i l le ic p rest anc acc hp ihr =>
    intro h
    have hcount : countMatches t rest ≤ 1 := by
      simp only [countMatches, if_neg hp] at h
      omega
    simp only [findPathAcc, findPath, if_neg hp]
    exact ihr hcount

end OvuShared

namespace OvuShared

/-! ## Claim theorems -/

/-- C1: for every menu tree and target path, `findExpandedItems` returns
exactly the ids of the proper ancestors, in root-to-parent order, of the
first node in depth-first (document) order whose path equals the target
path, and the empty list when no node in the tree has that path. -/
theorem findExpandedItems_eq_ancestorsOfFirstMatch
    (items : List MenuItem) (t : String) :
    findExpandedItems items t = ancestorsOfFirstMatch items t := by
  unfold findExpandedItems ancestorsOfFirstMatch
  rw [findPath_eq_find]

/-- C2: after the path-synchronization step, whenever the current path's
ancestor chain is non-empty the sidebar's collapsed state is `false`,
regardless of what the store holds under any key. -/
theorem syncWithPath_forces_open (m : List MenuItem) (p : String)
    (s : SidebarState) (store : Store)
    (h : 0 < (findExpandedItems m p).length) :
    ((syncWithPath m p s store).1).collapsed = false := by
  simp [syncWithPath, h]

theorem syncWithPath_forces_open_witness :
    0 < (findExpandedItems cexMenu "/t").length ∧
    ((syncWithPath cexMenu "/t" ⟨true, []⟩ emptyStore).1).collapsed = false := by
  have hlen : 0 < (findExpandedItems cexMenu "/t").length := by
    simp [findExpandedItems, cexMenu, findPath]
  exact ⟨hlen, syncWithPath_forces_open cexMenu "/t" ⟨true, []⟩ emptyStore hlen⟩

/-- C3: when the current path's matching node has no ancestors
(`findExpandedItems` is empty), the collapsed state computed by the
`useState` initializer of `Sidebar.tsx`, and by the `useLayoutEffect` of
`part_001`, is `true` exactly when the value stored under
`'sidebar_collapsed'` is the string `'true'`. -/
theorem collapsed_matches_stored_pref (m : List MenuItem) (p : String)
    (store : Store) (h : findExpandedItems m p = []) :
    ((initState m p store).collapsed = true ↔
       Store.getItem store "sidebar_collapsed" = some "true") ∧
    (((layoutSync m p store).1).collapsed = true ↔
       Store.getItem store "sidebar_collapsed" = some "true") := by
  constructor
  · simp [initState, h]
  · simp [layoutSync, h]

theorem collapsed_matches_stored_pref_witness :
    findExpandedItems cexMenu "/none" = [] ∧
    ((initState cexMenu "/none" prefStore).collapsed = true ↔
       Store.getItem prefStore "sidebar_collapsed" = some "true") ∧
    (((layoutSync cexMenu "/none" prefStore).1).collapsed = true ↔
       Store.getItem prefStore "sidebar_collapsed" = some "true") := by
  have hemp : findExpandedItems cexMenu "/none" = [] := by
    simp [findExpandedItems, cexMenu, findPath]
  exact ⟨hemp, (collapsed_matches_stored_pref cexMenu "/none" prefStore hemp).1,
    (collapsed_matches_stored_pref cexMenu "/none" prefStore hemp).2⟩

/-- C4: after the path-synchronization step the expanded-items list is
exactly `findExpandedItems menuItems currentPath`, whatever expansions
the previous state held. -/
theorem syncWithPath_resets_expandedItems (m : List MenuItem) (p : String)
    (s : SidebarState) (store : Store) :
    ((syncWithPath m p s store).1).expandedItems = findExpandedItems m p := by
  simp only [syncWithPath]
  split <;> rfl

/-- C5: a click on an item with a present, non-empty sub-item list
toggles that item's id in the expanded-items list and does not navigate;
a click on any other item navigates to exactly that item's path and
leaves the expanded-items list unchanged. -/
theorem handleClick_contract (item : MenuItem) (l : List String) :
    (hasSubItems item = true →
       (handleClick item l).2 = none ∧
       (item.id ∈ (handleClick item l).1 ↔ item.id ∉ l)) ∧
    (hasSubItems item = false →
       handleClick item l = (l, some item.path)) := by
  constructor
  · intro h
    simp [handleClick, h, mem_toggleExpand_self]
  · intro h
    simp [handleClick, h]

theorem handleClick_contract_witness :
    ((handleClick wParent []).2 = none ∧
       (wParent.id ∈ (handleClick wParent []).1 ↔
          wParent.id ∉ ([] : List String))) ∧
    handleClick wLeaf [] = ([], some wLeaf.path) :=
  ⟨(handleClick_contract wParent []).1 (by rfl),
   (handleClick_contract wLeaf []).2 (by rfl)⟩

/-- C6: when the current path has no ancestors, `toggleCollapse` stores
the string form of the new collapsed boolean under
`'sidebar_collapsed'`, and re-initializing with the resulting store
reproduces that collapsed state. -/
theorem toggleCollapse_roundtrip (m : List MenuItem) (p : String)
    (s : SidebarState) (store : Store)
    (h : findExpandedItems m p = []) :
    Store.getItem (toggleCollapse m p s store).2 "sidebar_collapsed" =
      some (toString ((toggleCollapse m p s store).1).collapsed) ∧
    (initState m p (toggleCollapse m p s store).2).collapsed =
      ((toggleCollapse m p s store).1).collapsed := by
  simp [toggleCollapse, h, Store.getItem, Store.setItem, initState]
  cases s.collapsed <;> simp [toString]

theorem toggleCollapse_roundtrip_witness :
    findExpandedItems cexMenu "/none" = [] ∧
    (Store.getItem (toggleCollapse cexMenu "/none" ⟨true, []⟩ emptyStore).2
        "sidebar_collapsed" =
      some (toString
        ((toggleCollapse cexMenu "/none" ⟨true, []⟩ emptyStore).1).collapsed)) ∧
    (initState cexMenu "/none"
        (toggleCollapse cexMenu "/none" ⟨true, []⟩ emptyStore).2).collapsed =
      ((toggleCollapse cexMenu "/none" ⟨true, []⟩ emptyStore).1).collapsed := by
  have hemp : findExpandedItems cexMenu "/none" = [] := by
    simp [findExpandedItems, cexMenu, findPath]
  exact ⟨hemp,
    (toggleCollapse_roundtrip cexMenu "/none" ⟨true, []⟩ emptyStore hemp).1,
    (toggleCollapse_roundtrip cexMenu "/none" ⟨true, []⟩ emptyStore hemp).2⟩

/-- C7, counterexample: `cexMenu` has pairwise-distinct paths in every
sibling list, yet the short-circuiting search of `Sidebar.tsx` and the
non-short-circuiting search of `part_000` disagree on the target path
`"/t"`, which occurs under two different parents. -/
theorem sibling_uniqueness_insufficient :
    siblingPathsUnique cexMenu = true ∧
    findExpandedItems cexMenu "/t" = ["a"] ∧
    getExpandedItemsForPath cexMenu "/t" = ["a", "b"] ∧
    ¬ findExpandedItems cexMenu "/t" = getExpandedItemsForPath cexMenu "/t" := by
  have h1 : siblingPathsUnique cexMenu = true := by
    simp [siblingPathsUnique, cexMenu, MenuItem.path]
  have h2 : findExpandedItems cexMenu "/t" = ["a"] := by
    simp [findExpandedItems, cexMenu, findPath]
  have h3 : getExpandedItemsForPath cexMenu "/t" = ["a", "b"] := by
    simp [getExpandedItemsForPath, cexMenu, findPathAcc]
  refine ⟨h1, h2, h3, ?ne⟩
  rw [h2, h3]
  simp

/-- C7, amended: under the stronger precondition that at most one node
of the whole tree carries the target path (global uniqueness of the
matched path, not merely uniqueness among siblings), the two search
variants return the same list. -/
theorem search_variants_agree_of_unique_match (items : List MenuItem)
    (t : String) (h : countMatches t items ≤ 1) :
    findExpandedItems items t = getExpandedItemsForPath items t := by
  unfold findExpandedItems getExpandedItemsForPath
  rw [findPathAcc_eq_findPath t items [] [] h]
  simp

theorem search_variants_agree_witness :
    countMatches "/a" cexMenu ≤ 1 ∧
    findExpandedItems cexMenu "/a" = getExpandedItemsForPath cexMenu "/a" := by
  have hc : countMatches "/a" cexMenu ≤ 1 := by
    simp [countMatches, cexMenu]
  exact ⟨hc, search_variants_agree_of_unique_match cexMenu "/a" hc⟩

/-- C8: the synchronization, layout-synchronization and collapse-toggle
operations leave every storage key other than `'sidebar_collapsed'`
unchanged, and together with the initial-state computation their
state results depend on the store only through that one key. -/
theorem sidebar_store_frame (m : List MenuItem) (p : String)
    (s : SidebarState) (store : Store) (k : String)
    (hk : k ≠ "sidebar_collapsed") :
    Store.getItem (syncWithPath m p s store).2 k = Store.getItem store k ∧
    Store.getItem (layoutSync m p store).2 k = Store.getItem store k ∧
    Store.getItem (toggleCollapse m p s store).2 k = Store.getItem store k ∧
    ∀ store2 : Store,
      Store.getItem store "sidebar_collapsed" =
        Store.getItem store2 "sidebar_collapsed" →
      initState m p store = initState m p store2 ∧
      (syncWithPath m p s store).1 = (syncWithPath m p s store2).1 ∧
      (layoutSync m p store).1 = (layoutSync m p store2).1 ∧
      (toggleCollapse m p s store).1 = (toggleCollapse m p s store2).1 := by
  refine ⟨?a, ?b, ?c, ?d⟩
  · simp only [syncWithPath]
    split <;> simp [Store.getItem, Store.removeItem, hk]
  · simp only [layoutSync]
    split <;> simp [Store.getItem, Store.removeItem, hk]
  · simp only [toggleCollapse]
    split <;> simp [Store.getItem, Store.removeItem, Store.setItem, hk]
  · intro store2 h2
    refine ⟨?e, ?f, ?g, ?i⟩
    · simp only [initState, Store.getItem] at h2 ⊢
      simp only [h2]
    · simp only [syncWithPath]
      split <;> rfl
    · simp only [layoutSync, Store.getItem] at h2 ⊢
      simp only [h2]
      split <;> rfl
    · simp only [toggleCollapse]
      split <;> rfl

theorem sidebar_store_frame_witness :
    "other" ≠ "sidebar_collapsed" ∧
    Store.getItem (syncWithPath cexMenu "/t" ⟨true, []⟩ emptyStore).2 "other" =
      Store.getItem emptyStore "other" :=
  ⟨by decide,
   (sidebar_store_frame cexMenu "/t" ⟨true, []⟩ emptyStore "other"
      (by decide)).1⟩

/-- C9: the depth-first search of `findExpandedItems` terminates on
every finite menu tree: with fuel `menuSize items` the fuel-bounded
variant finishes (never exhausts its fuel) and computes the same result
as the total function, for every target path, matching or not. -/
theorem findPath_terminates_with_menuSize_fuel (items : List MenuItem)
    (t : String) :
    findPathFuel (menuSize items) t items [] = some (findPath t items []) ∧
    findExpandedItems items t = (findPath t items []).getD [] :=
  ⟨findPathFuel_eq t (menuSize items) items [] (Nat.le_refl _), rfl⟩

/-- C10: one application of `toggleExpand` flips membership of the
toggled id, and two successive applications with the same id produce a
list with exactly the same members as the original; concretely the
double toggle keeps the other ids in order and moves the toggled id to
the end when it was present. -/
theorem toggleExpand_flips_membership (a : String) (l : List String) :
    (a ∈ toggleExpand a l ↔ a ∉ l) ∧
    (∀ x, x ∈ toggleExpand a (toggleExpand a l) ↔ x ∈ l) ∧
    toggleExpand a (toggleExpand a l) =
      (if a ∈ l then l.filter (fun i => i != a) ++ [a] else l) :=
  ⟨mem_toggleExpand_self a l,
   fun x => mem_toggleExpand_toggleExpand a x l,
   toggleExpand_toggleExpand_eq a l⟩

end OvuShared
